import Mathlib

/-!
Verification development for the UML class-diagram editor engine
(`src/app/page.tsx` and its companion components).

The TypeScript state engine is shallowly embedded: React state updates become
pure functions on explicit state values, array operations become `List`
operations, and JavaScript truthiness (`x || d`, `!x`) is modelled explicitly
on `Option`/`String`/`Nat` values.  Fields that hold callbacks
(`onSelectSection`, `updateEdgeLabel`, ...) and free-form 2D positions carry no
data relevant to any verified property and are omitted from the records; the
persistence bridge's callback stripping/re-binding is therefore the identity on
the modelled fields, exactly as the spec's "callback fields re-bound, not
compared" reading prescribes.
-/

namespace UmlFlow

/-- Data carried by a class node (`CustomNodeData` in `page.tsx`): id,
class name, and the ordered attribute/method string lists, plus the
per-node `selectedSection` selection mirror (nullable integer). -/
structure NodeRec where
  id : String
  className : String
  attributes : List String
  methods : List String
  selectedSection : Option Int
  deriving Repr, DecidableEq

/-- A relationship edge (`CustomEdge = Edge<CustomEdgeData>`): the reactflow
`source`/`target` ids and optional handles, and the `CustomEdgeData` payload
whose fields are all optional in TypeScript (`label?`, `relationshipType?`,
`edgeIndex?`, `totalEdges?`), hence `Option` here. -/
structure EdgeRec where
  id : String
  source : String
  target : String
  sourceHandle : Option String
  targetHandle : Option String
  label : Option String
  relationshipType : Option String
  edgeIndex : Option Nat
  totalEdges : Option Nat
  deriving Repr, DecidableEq

/-- JavaScript truthiness of an optional string: `undefined`/`null` and the
empty string are falsy. -/
def strFalsy : Option String → Bool
  | none => true
  | some s => s = ""

/-- JavaScript `v || d` for an optional string field. -/
def jsOrStr (v : Option String) (d : String) : String :=
  match v with
  | none => d
  | some s => if s = "" then d else s

/-- JavaScript `v || d` for an optional non-negative number field
(`0` is falsy). -/
def jsOrNat (v : Option Nat) (d : Nat) : Nat :=
  match v with
  | none => d
  | some n => if n = 0 then d else n

/-- String interpolation of a nullable handle (`${params.sourceHandle}` prints
`null` when the handle is absent). -/
def showHandle : Option String → String
  | none => "null"
  | some s => s

/-- The filter predicate of `updateEdgeIndicesBetweenNodes`: the edge joins the
unordered pair `{sourceId, targetId}` (either direction). -/
def sameEdgePair (sourceId targetId : String) (e : EdgeRec) : Bool :=
  (e.source = sourceId && e.target = targetId) ||
  (e.source = targetId && e.target = sourceId)

/-- One pass of the offset recompute.  In the source, `sameEdges` is the
filtered sub-array and each matching edge object receives
`edgeIndex = sameEdges.indexOf(edge)` and `totalEdges = sameEdges.length`;
since `includes`/`indexOf` compare object references and every array slot
holds a distinct object, a matching edge's index is its rank among the
matching edges in store order, tracked here by the `seen` accumulator. -/
def updateEdgeIndicesGo (sourceId targetId : String) (total : Nat) :
    Nat → List EdgeRec → List EdgeRec
  | _, [] => []
  | seen, e :: rest =>
    if sameEdgePair sourceId targetId e then
      { e with edgeIndex := some seen, totalEdges := some total } ::
        updateEdgeIndicesGo sourceId targetId total (seen + 1) rest
    else
      e :: updateEdgeIndicesGo sourceId targetId total seen rest

/-- `updateEdgeIndicesBetweenNodes` (page.tsx lines 390-414): re-packs
`edgeIndex`/`totalEdges` over every edge joining the unordered pair
`{sourceId, targetId}`, leaving all other edges untouched. -/
def updateEdgeIndicesBetweenNodes (sourceId targetId : String)
    (es : List EdgeRec) : List EdgeRec :=
  updateEdgeIndicesGo sourceId targetId
    (es.filter (sameEdgePair sourceId targetId)).length 0 es

/-- Handle comparison used by reactflow's `connectionExists`:
`el.h === edge.h || (!el.h && !edge.h)` where an absent or empty handle is
falsy. -/
def handleMatches (a b : Option String) : Bool :=
  a = b || (strFalsy a && strFalsy b)

/-- reactflow's `connectionExists(edge, edges)` helper (the editor consumes
`addEdge` from the reactflow library): some stored edge has the same
source, target and (falsy-coalesced) handles. -/
def connectionExists (e : EdgeRec) (es : List EdgeRec) : Bool :=
  es.any fun el =>
    el.source = e.source && el.target = e.target &&
    handleMatches el.sourceHandle e.sourceHandle &&
    handleMatches el.targetHandle e.targetHandle

/-- reactflow's `addEdge(edgeParams, edges)` for an already-id-carrying edge:
no-op on a falsy endpoint, no-op when an equivalent connection already
exists, otherwise append. -/
def addEdge (e : EdgeRec) (es : List EdgeRec) : List EdgeRec :=
  if e.source = "" || e.target = "" then es
  else if connectionExists e es then es
  else es ++ [e]

/-- A reactflow `Connection` as delivered to `onConnect`: nullable endpoint
ids and nullable handles. -/
structure ConnectionRec where
  source : Option String
  target : Option String
  sourceHandle : Option String
  targetHandle : Option String
  deriving Repr, DecidableEq

/-- The new edge literal built inside `onConnect` (page.tsx lines 421-437);
`now` stands for the `Date.now()` timestamp embedded in the id. -/
def connectNewEdge (s t : String) (sourceHandle targetHandle : Option String)
    (now : Nat) : EdgeRec :=
  { id := "edge-" ++ s ++ "-" ++ showHandle sourceHandle ++ "-" ++ t ++ "-" ++
      showHandle targetHandle ++ "-" ++ toString now
    source := s
    target := t
    sourceHandle := sourceHandle
    targetHandle := targetHandle
    label := some "Association"
    relationshipType := some "association"
    edgeIndex := some 0
    totalEdges := some 1 }

/-- `onConnect` (page.tsx lines 416-449): guard falsy endpoints, append the
new edge via reactflow's `addEdge`, then recompute the pair's offsets.  The
two queued functional `setEdges` updates compose in order. -/
def onConnect (p : ConnectionRec) (now : Nat) (es : List EdgeRec) :
    List EdgeRec :=
  if strFalsy p.source || strFalsy p.target then es
  else
    match p.source, p.target with
    | some s, some t =>
        updateEdgeIndicesBetweenNodes s t
          (addEdge (connectNewEdge s t p.sourceHandle p.targetHandle now) es)
    | _, _ => es

/-- The Delete-key edge branch (page.tsx lines 490-496): when a selected edge
id resolves to a stored edge, remove it and recompute the offsets of its
former pair; selection clearing is tracked by the caller. -/
def deleteSelectedEdge (selectedEdgeId : String) (es : List EdgeRec) :
    List EdgeRec :=
  match es.find? (fun e => e.id = selectedEdgeId) with
  | none => es
  | some edgeToDelete =>
      updateEdgeIndicesBetweenNodes edgeToDelete.source edgeToDelete.target
        (es.filter (fun e => !(e.id = selectedEdgeId)))

/-- `handleDeleteClass` (page.tsx lines 128-134): drop the node with the
given id and every edge incident to it. -/
def handleDeleteClass (nodeId : String) (ns : List NodeRec)
    (es : List EdgeRec) : List NodeRec × List EdgeRec :=
  (ns.filter (fun n => !(n.id = nodeId)),
   es.filter (fun e => !(e.source = nodeId) && !(e.target = nodeId)))

/-- Offset invariant for one unordered pair: the edges joining `{a,b}`, read
in store order, carry `edgeIndex` values `0, 1, ..., k-1` and every one of
them records `totalEdges = k`, `k` being how many such edges there are. -/
def pairOffsetsOk (a b : String) (es : List EdgeRec) : Prop :=
  (es.filter (sameEdgePair a b)).map EdgeRec.edgeIndex
      = (List.range (es.filter (sameEdgePair a b)).length).map some
  ∧ ∀ e ∈ es.filter (sameEdgePair a b),
      e.totalEdges = some (es.filter (sameEdgePair a b)).length

lemma sameEdgePair_set (s t : String) (e : EdgeRec) (r k : Nat) :
    sameEdgePair s t { e with edgeIndex := some r, totalEdges := some k }
      = sameEdgePair s t e := rfl

lemma go_filter_map (s t : String) (k : Nat) :
    ∀ (es : List EdgeRec) (seen : Nat),
    ((updateEdgeIndicesGo s t k seen es).filter (sameEdgePair s t)).map
        EdgeRec.edgeIndex
      = (List.range' seen (es.filter (sameEdgePair s t)).length).map some := by
  intro es
  induction es with
  | nil => intro seen; simp [updateEdgeIndicesGo]
  | cons e rest ih =>
    intro seen
    by_cases h : sameEdgePair s t e
    · simp [updateEdgeIndicesGo, h, List.filter_cons, sameEdgePair_set,
        List.range'_succ, ih (seen + 1)]
    · simp only [updateEdgeIndicesGo, h, if_false, List.filter_cons]
      simp [h, ih seen]

lemma go_totalEdges (s t : String) (k : Nat) :
    ∀ (es : List EdgeRec) (seen : Nat) (e : EdgeRec),
    e ∈ (updateEdgeIndicesGo s t k seen es).filter (sameEdgePair s t) →
    e.totalEdges = some k := by
  intro es
  induction es with
  | nil => intro seen e he; simp [updateEdgeIndicesGo] at he
  | cons e0 rest ih =>
    intro seen e he
    by_cases h : sameEdgePair s t e0
    · simp only [updateEdgeIndicesGo, h, if_true, List.filter_cons,
        sameEdgePair_set] at he
      simp only [h, if_true, List.mem_cons] at he
      rcases he with rfl | he
      · rfl
      · exact ih (seen + 1) e (by simpa using he)
    · refine ih seen e ?_
      simpa [updateEdgeIndicesGo, h, List.filter_cons] using he

lemma go_nonpair_filter (s t : String) (k : Nat) :
    ∀ (es : List EdgeRec) (seen : Nat),
    (updateEdgeIndicesGo s t k seen es).filter (fun e => !sameEdgePair s t e)
      = es.filter (fun e => !sameEdgePair s t e) := by
  intro es
  induction es with
  | nil => intro seen; simp [updateEdgeIndicesGo]
  | cons e rest ih =>
    intro seen
    by_cases h : sameEdgePair s t e
    · simp only [updateEdgeIndicesGo, h, if_true, List.filter_cons,
        sameEdgePair_set]
      simp [h, ih (seen + 1)]
    · simp only [updateEdgeIndicesGo, h, if_false, List.filter_cons]
      simp [h, ih seen]

/-- The recompute establishes the pair invariant and leaves the sub-list of
edges outside the pair untouched, whatever the input store. -/
lemma updateEdgeIndices_spec (a b : String) (es : List EdgeRec) :
    pairOffsetsOk a b (updateEdgeIndicesBetweenNodes a b es) ∧
    (updateEdgeIndicesBetweenNodes a b es).filter
        (fun e => !sameEdgePair a b e)
      = es.filter (fun e => !sameEdgePair a b e) := by
  have hmap := go_filter_map a b (es.filter (sameEdgePair a b)).length es 0
  have hlen : ((updateEdgeIndicesBetweenNodes a b es).filter
      (sameEdgePair a b)).length = (es.filter (sameEdgePair a b)).length := by
    have := congrArg List.length hmap
    simpa [updateEdgeIndicesBetweenNodes] using this
  refine ⟨⟨?_, ?_⟩, ?_⟩
  · rw [hlen]
    simpa [updateEdgeIndicesBetweenNodes, List.range_eq_range'] using hmap
  · intro e he
    rw [hlen]
    exact go_totalEdges a b (es.filter (sameEdgePair a b)).length es 0 e he
  · exact go_nonpair_filter a b (es.filter (sameEdgePair a b)).length es 0

lemma sameEdgePair_connectNewEdge (s t : String) (sh th : Option String)
    (now : Nat) : sameEdgePair s t (connectNewEdge s t sh th now) = true := by
  simp [sameEdgePair, connectNewEdge]

/-- C1: after a connect (`onConnect`) with live endpoints `s`, `t`, or after a
Delete-key edge deletion followed by the offset recompute, the edges joining
the touched unordered pair carry `edgeIndex` values exactly `0..k-1` in store
order with every `totalEdges = k` (`k` the number of such edges), and the
sub-list of edges belonging to any other pair is unchanged. -/
theorem offset_invariant_connect_delete :
    (∀ (p : ConnectionRec) (now : Nat) (es : List EdgeRec) (s t : String),
       p.source = some s → p.target = some t → s ≠ "" → t ≠ "" →
       pairOffsetsOk s t (onConnect p now es) ∧
       (onConnect p now es).filter (fun e => !sameEdgePair s t e)
         = es.filter (fun e => !sameEdgePair s t e)) ∧
    (∀ (eid : String) (es : List EdgeRec) (e : EdgeRec),
       (es.map EdgeRec.id).Nodup →
       es.find? (fun x => x.id = eid) = some e →
       pairOffsetsOk e.source e.target (deleteSelectedEdge eid es) ∧
       (deleteSelectedEdge eid es).filter
           (fun x => !sameEdgePair e.source e.target x)
         = es.filter (fun x => !sameEdgePair e.source e.target x)) := by
  constructor
  · intro p now es s t hs ht hs0 ht0
    have hconn : onConnect p now es
        = updateEdgeIndicesBetweenNodes s t
            (addEdge (connectNewEdge s t p.sourceHandle p.targetHandle now)
              es) := by
      simp [onConnect, hs, ht, strFalsy, hs0, ht0]
    have hspec := updateEdgeIndices_spec s t
      (addEdge (connectNewEdge s t p.sourceHandle p.targetHandle now) es)
    refine ⟨hconn ▸ hspec.1, ?_⟩
    rw [hconn, hspec.2]
    unfold addEdge
    have hsrc : (connectNewEdge s t p.sourceHandle p.targetHandle now).source
        = s := rfl
    have htgt : (connectNewEdge s t p.sourceHandle p.targetHandle now).target
        = t := rfl
    rw [hsrc, htgt]
    simp only [hs0, ht0, if_false]
    by_cases hex : connectionExists
        (connectNewEdge s t p.sourceHandle p.targetHandle now) es
    · simp [hex]
    · simp [hex, List.filter_append, sameEdgePair_connectNewEdge]
  · intro eid es e hnodup hfind
    have hid : e.id = eid := by
      have := List.find?_some hfind
      simpa using this
    have hmem : e ∈ es := List.mem_of_find?_eq_some hfind
    have hpair_e : sameEdgePair e.source e.target e = true := by
      simp [sameEdgePair]
    have hdel : deleteSelectedEdge eid es
        = updateEdgeIndicesBetweenNodes e.source e.target
            (es.filter (fun x => !(x.id = eid))) := by
      simp [deleteSelectedEdge, hfind]
    have hspec := updateEdgeIndices_spec e.source e.target
      (es.filter (fun x => !(x.id = eid)))
    refine ⟨hdel ▸ hspec.1, ?_⟩
    rw [hdel, hspec.2, List.filter_filter]
    refine List.filter_congr ?_
    intro x hx
    by_cases hpx : sameEdgePair e.source e.target x
    · simp [hpx]
    · have hxid : ¬ x.id = eid := by
        intro hxe
        have : x = e :=
          List.inj_on_of_nodup_map hnodup hx hmem (by rw [hxe, hid])
        rw [this] at hpx
        exact hpx hpair_e
      simp [hpx, hxid]

/-- Witness for C1 at concrete inputs: a connect between live nodes `"1"` and
`"2"` on an empty store, and a Delete-key deletion of the only edge of a
two-edge store. -/
theorem offset_invariant_connect_delete_witness :
    pairOffsetsOk "1" "2"
      (onConnect ⟨some "1", some "2", none, none⟩ 7 []) ∧
    pairOffsetsOk "1" "2"
      (deleteSelectedEdge "e0"
        [{ id := "e0", source := "1", target := "2", sourceHandle := none,
           targetHandle := none, label := some "Association",
           relationshipType := some "association", edgeIndex := some 0,
           totalEdges := some 1 }]) := by
  constructor
  · exact (offset_invariant_connect_delete.1 ⟨some "1", some "2", none, none⟩
      7 [] "1" "2" rfl rfl (by decide) (by decide)).1
  · exact (offset_invariant_connect_delete.2 "e0"
      [{ id := "e0", source := "1", target := "2", sourceHandle := none,
         targetHandle := none, label := some "Association",
         relationshipType := some "association", edgeIndex := some 0,
         totalEdges := some 1 }]
      { id := "e0", source := "1", target := "2", sourceHandle := none,
        targetHandle := none, label := some "Association",
        relationshipType := some "association", edgeIndex := some 0,
        totalEdges := some 1 }
      (by decide) (by decide)).1

/-- C2: after `handleDeleteClass n`, the node `n` is gone, no remaining edge
is incident to `n`, and every other node and non-incident edge survives in
order. -/
theorem cascading_delete_removes_incident_edges
    (n : String) (ns : List NodeRec) (es : List EdgeRec) :
    ¬ n ∈ (handleDeleteClass n ns es).1.map NodeRec.id ∧
    (∀ e ∈ (handleDeleteClass n ns es).2, e.source ≠ n ∧ e.target ≠ n) ∧
    (handleDeleteClass n ns es).1 = ns.filter (fun x => !(x.id = n)) ∧
    (handleDeleteClass n ns es).2
      = es.filter (fun e => !(e.source = n) && !(e.target = n)) := by
  refine ⟨?_, ?_, rfl, rfl⟩
  · intro hmem
    rcases List.mem_map.mp hmem with ⟨x, hx, hxid⟩
    have := List.of_mem_filter hx
    simp [hxid] at this
  · intro e he
    have := List.of_mem_filter he
    constructor
    · intro hs; rw [hs] at this; simp at this
    · intro ht; rw [ht] at this; simp at this

/-- Shorthand for a plain association edge record, used to instantiate the
universally quantified theorems at concrete stores. -/
def sampleEdge (i s t : String) : EdgeRec :=
  { id := i, source := s, target := t, sourceHandle := none,
    targetHandle := none, label := some "Association",
    relationshipType := some "association", edgeIndex := some 0,
    totalEdges := some 1 }

/-- Witness for C2: deleting node `"1"` from a concrete two-node store with
one incident and one non-incident edge. -/
theorem cascading_delete_removes_incident_edges_witness :
    ¬ "1" ∈ (handleDeleteClass "1"
        [{ id := "1", className := "A", attributes := [], methods := [],
           selectedSection := none },
         { id := "2", className := "B", attributes := [], methods := [],
           selectedSection := none }]
        [sampleEdge "e1" "1" "2", sampleEdge "e2" "2" "3"]).1.map NodeRec.id
    ∧ (sampleEdge "e2" "2" "3").source ≠ "1"
    ∧ (sampleEdge "e2" "2" "3").target ≠ "1" := by
  refine ⟨?_, ?_⟩
  · exact (cascading_delete_removes_incident_edges "1"
      [{ id := "1", className := "A", attributes := [], methods := [],
         selectedSection := none },
       { id := "2", className := "B", attributes := [], methods := [],
         selectedSection := none }]
      [sampleEdge "e1" "1" "2", sampleEdge "e2" "2" "3"]).1
  · exact (cascading_delete_removes_incident_edges "1"
      [{ id := "1", className := "A", attributes := [], methods := [],
         selectedSection := none },
       { id := "2", className := "B", attributes := [], methods := [],
         selectedSection := none }]
      [sampleEdge "e1" "1" "2", sampleEdge "e2" "2" "3"]).2.1
      (sampleEdge "e2" "2" "3") (by decide)

/-! ## Persistence bridge, identity allocator and session load -/

/-- Module-level `let classCounter = 1` in `page.tsx`: the allocator's value
in a fresh session before any load or add has run. -/
def initialClassCounter : Nat := 1

/-- The default node seeded by the load effect when no blob is stored
(page.tsx lines 336-351). -/
def defaultNode : NodeRec :=
  { id := "1", className := "Class 1", attributes := ["attribute: Type"],
    methods := ["method(): ReturnType"], selectedSection := some 0 }

/-- The node literal built by `handleAddNode` (page.tsx lines 463-477) at a
given `classCounter` value. -/
def addNodeData (c : Nat) : NodeRec :=
  { id := toString c, className := "Class " ++ toString c,
    attributes := ["attribute: Type"], methods := ["method(): ReturnType"],
    selectedSection := some 0 }

/-- `handleAddNode`: append the new node and bump the global counter; the
new selection is (new id, section 0). -/
def handleAddNode (c : Nat) (ns : List NodeRec) : Nat × List NodeRec :=
  (c + 1, ns ++ [addNodeData c])

/-- Base-10 digit-prefix value of a string, `none` when the string does not
start with a digit: the behavior of `parseInt(s, 10)` on the editor's id
strings (`NaN` becomes `none`). -/
def parseIntBase10 (s : String) : Option Nat :=
  let ds := s.data.takeWhile Char.isDigit
  if ds.isEmpty then none
  else some (ds.foldl (fun acc c => acc * 10 + (c.toNat - 48)) 0)

/-- The load effect's `parseInt(n.id, 10) || 1` (`NaN` and `0` are falsy). -/
def parseIntOr1 (s : String) : Nat :=
  match parseIntBase10 s with
  | none => 1
  | some n => if n = 0 then 1 else n

/-- A persisted `diagram-flow` blob: the node and edge records with callback
fields stripped (callbacks and positions carry no modelled data, so the
stripping of `saveDiagram` is the identity on these records). -/
structure FlowBlob where
  nodes : List NodeRec
  edges : List EdgeRec
  deriving Repr, DecidableEq

/-- `saveDiagram` (page.tsx lines 276-297): strip the callback fields of
every node and edge and serialize the rest; on the modelled fields this
keeps every record intact. -/
def saveDiagram (ns : List NodeRec) (es : List EdgeRec) : FlowBlob :=
  ⟨ns, es⟩

/-- What `localStorage.getItem('diagram-flow')` + `JSON.parse` + shape-mapping
can produce: no stored value, a corrupt value (parse failure or shape
mismatch, i.e. the `try` body throws), or a well-formed flow blob. -/
inductive StoredBlob where
  | missing : StoredBlob
  | corrupt : StoredBlob
  | ok : FlowBlob → StoredBlob
  deriving Repr, DecidableEq

/-- Outcome of the load effect: the stores it installs, the allocator value
it leaves behind, and whether it removed the persisted key. -/
structure LoadResult where
  nodes : List NodeRec
  edges : List EdgeRec
  classCounter : Nat
  storageKeyRemoved : Bool
  deriving Repr, DecidableEq

/-- Edge rehydration on load (page.tsx lines 314-325): re-bind callbacks and
apply the `||` defaults to every data field. -/
def rehydrateEdge (e : EdgeRec) : EdgeRec :=
  { e with
    label := some (jsOrStr e.label "Association")
    relationshipType := some (jsOrStr e.relationshipType "association")
    edgeIndex := some (jsOrNat e.edgeIndex 0)
    totalEdges := some (jsOrNat e.totalEdges 1) }

/-- The load effect (page.tsx lines 299-360).  `counter` is the allocator
value before the effect runs (`1` in a fresh session).  A missing blob seeds
the default node; a corrupt blob lands in the `catch` branch, which removes
the persisted key and resets both stores to empty; a well-formed blob is
rehydrated and, when it holds at least one node, reseeds the allocator to
`max(parseInt(id) || 1) + 1`. -/
def loadDiagram (stored : StoredBlob) (counter : Nat) : LoadResult :=
  match stored with
  | .missing =>
      { nodes := [defaultNode], edges := [], classCounter := counter,
        storageKeyRemoved := false }
  | .corrupt =>
      { nodes := [], edges := [], classCounter := counter,
        storageKeyRemoved := true }
  | .ok flow =>
      let loadedNodes := flow.nodes
      let loadedEdges := flow.edges.map rehydrateEdge
      { nodes := loadedNodes
        edges := loadedEdges
        classCounter :=
          if loadedNodes.length > 0 then
            ((loadedNodes.map (fun n => parseIntOr1 n.id)).foldl max 0) + 1
          else counter
        storageKeyRemoved := false }

/-- C3 exhibit: in a fresh session with no stored blob, the load effect seeds
the default node with id `"1"` but leaves `classCounter` at `1`, so the very
first `handleAddNode` issues the id `"1"` again — a duplicate, not an id
strictly greater than every id loaded so far. -/
theorem fresh_session_first_add_reissues_loaded_id :
    (loadDiagram .missing initialClassCounter).classCounter
        = initialClassCounter ∧
    (loadDiagram .missing initialClassCounter).nodes.map NodeRec.id = ["1"] ∧
    ((handleAddNode (loadDiagram .missing initialClassCounter).classCounter
        (loadDiagram .missing initialClassCounter).nodes).2.map NodeRec.id)
      = ["1", "1"] := by
  refine ⟨rfl, rfl, ?_⟩
  decide

/-- C9: loading a corrupt persisted blob completes (the `catch` branch is a
total continuation of the load), removes the `diagram-flow` key and leaves
both stores empty, whatever the allocator value. -/
theorem corrupt_blob_load_resets_stores (counter : Nat) :
    (loadDiagram .corrupt counter).nodes = [] ∧
    (loadDiagram .corrupt counter).edges = [] ∧
    (loadDiagram .corrupt counter).storageKeyRemoved = true :=
  ⟨rfl, rfl, rfl⟩

/-- C6 counterexample: an edge whose `label` is the empty string does not
round-trip: rehydration's `edge.data?.label || 'Association'` replaces the
empty (falsy) label with `"Association"`. -/
theorem persistence_round_trip_empty_label_fails :
    (loadDiagram (.ok (saveDiagram
        [defaultNode, addNodeData 2]
        [{ id := "e0", source := "1", target := "2", sourceHandle := none,
           targetHandle := none, label := some "",
           relationshipType := some "dependency", edgeIndex := some 0,
           totalEdges := some 1 }])) 3).edges.map EdgeRec.label
      = [some "Association"] ∧ some "Association" ≠ (some "" : Option String)
    := by refine ⟨?_, by decide⟩; rfl

/-- C6 (amended): saving a store of two nodes and one edge and reloading the
blob in a fresh session reproduces each node's `className`, `attributes` and
`methods`, and reproduces the edge's `relationshipType` and `label` provided
both are present and nonempty (empty or absent values are replaced by the
load defaults); callback fields are re-bound, not compared. -/
theorem persistence_round_trip (n1 n2 : NodeRec) (e : EdgeRec) (c : Nat)
    (l r : String) (hl : e.label = some l) (hl0 : l ≠ "")
    (hr : e.relationshipType = some r) (hr0 : r ≠ "") :
    (loadDiagram (.ok (saveDiagram [n1, n2] [e])) c).nodes.map
        (fun n => (n.className, n.attributes, n.methods))
      = [(n1.className, n1.attributes, n1.methods),
         (n2.className, n2.attributes, n2.methods)] ∧
    (loadDiagram (.ok (saveDiagram [n1, n2] [e])) c).edges.map
        (fun x => (x.label, x.relationshipType))
      = [(some l, some r)] := by
  refine ⟨rfl, ?_⟩
  simp [loadDiagram, saveDiagram, rehydrateEdge, jsOrStr, hl, hr, hl0, hr0]

/-- Witness for C6 at a concrete two-node, one-edge store with a nonempty
label and relationship type. -/
theorem persistence_round_trip_witness :
    (loadDiagram (.ok (saveDiagram [defaultNode, addNodeData 2]
        [{ id := "e1", source := "1", target := "2", sourceHandle := none,
           targetHandle := none, label := some "owns",
           relationshipType := some "composition", edgeIndex := some 0,
           totalEdges := some 1 }])) 3).edges.map
        (fun x => (x.label, x.relationshipType))
      = [(some "owns", some "composition")] :=
  (persistence_round_trip defaultNode (addNodeData 2)
    { id := "e1", source := "1", target := "2", sourceHandle := none,
      targetHandle := none, label := some "owns",
      relationshipType := some "composition", edgeIndex := some 0,
      totalEdges := some 1 } 3 "owns" "composition" rfl (by decide) rfl
    (by decide)).2

/-! ## Keyboard navigator -/

/-- Placeholder record used only to give `List.getD` a default; every lookup
in the navigator happens at an index that is in range. -/
def dummyNode : NodeRec :=
  { id := "", className := "", attributes := [], methods := [],
    selectedSection := none }

/-- `nodes.findIndex((n) => n.id === selectedNodeId)`: a `null` selection
matches nothing, otherwise the first node with the selected id
(`none` stands for `-1`). -/
def findNodeIdx (ns : List NodeRec) (selId : Option String) : Option Nat :=
  match selId with
  | none => none
  | some i => ns.findIdx? (fun n => n.id = i)

/-- Per-node section count used by the forward Tab math:
`2 + (attributes.length || 1) + (methods.length || 1)`. -/
def tabTotalSections (n : NodeRec) : Nat :=
  2 + max n.attributes.length 1 + max n.methods.length 1

/-- The `setNodes` call at the end of the Tab branch: mark the target node's
`selectedSection` and clear every other node's. -/
def applySelectedSectionMark (targetId : String) (sec : Int)
    (ns : List NodeRec) : List NodeRec :=
  ns.map fun n =>
    if n.id = targetId then { n with selectedSection := some sec }
    else { n with selectedSection := none }

/-- Core of the Tab branch once a current index `i` is fixed (page.tsx lines
530-560).  `selId1` is the selection id after the missing-selection fallback.
The section index lives in `Int` because the decrement may pass below zero
before the underflow check runs.  Note the underflow branch recomputes the
previous node's section count as `2 + attributes.length + methods.length`,
without the `|| 1` placeholder floor used by the forward direction. -/
def tabStepAt (shift : Bool) (ns : List NodeRec) (selId1 : Option String)
    (i : Nat) (selSec : Int) : List NodeRec × Option String × Int :=
  let currentNode := ns.getD i dummyNode
  let totalSections : Int := tabTotalSections currentNode
  let newIdx : Int := selSec + (if shift then -1 else 1)
  if totalSections ≤ newIdx then
    let i2 := (i + 1) % ns.length
    let node2 := ns.getD i2 dummyNode
    (applySelectedSectionMark node2.id 0 ns, some node2.id, 0)
  else if newIdx < 0 then
    let i2 := (i + ns.length - 1) % ns.length
    let node2 := ns.getD i2 dummyNode
    let newTotal : Int :=
      2 + node2.attributes.length + node2.methods.length
    (applySelectedSectionMark node2.id (newTotal - 1) ns, some node2.id,
      newTotal - 1)
  else
    (applySelectedSectionMark currentNode.id newIdx ns, selId1, newIdx)

/-- The Tab / Shift+Tab branch of `handleKeyDown` (page.tsx lines 520-562):
resolve the current node (falling back to index 0 when nothing is selected
and the store is non-empty), advance or retreat the section index, wrapping
forward to section 0 of the next node and backward to the last section of
the previous node, then install the new selection. -/
def tabStep (shift : Bool) (ns : List NodeRec) (selId : Option String)
    (selSec : Int) : List NodeRec × Option String × Int :=
  match findNodeIdx ns selId with
  | some i => tabStepAt shift ns selId i selSec
  | none =>
      match ns with
      | [] => (ns, selId, selSec)
      | n0 :: _ => tabStepAt shift ns (some n0.id) 0 selSec

/-- JavaScript `arr.splice(start, 1)` as a pure removal: a negative start
counts from the end (clamped at 0), a start at or past the end removes
nothing. -/
def spliceRemoveOne (l : List String) (i : Int) : List String :=
  l.eraseIdx (if i < 0 then ((l.length : Int) + i).toNat
              else min i.toNat l.length)

/-- The Delete-key branch of `handleKeyDown` (page.tsx lines 489-517): a
truthy selected edge id takes priority (delete that edge, clear the edge
selection, recompute its pair's offsets); otherwise a truthy selected node
id at section 0 or 1 deletes the whole node with its incident edges, and at
a deeper section splices one attribute or method out of the node in place.
Returns the new `(nodes, edges, selectedEdgeId)`. -/
def deleteKeyStep (ns : List NodeRec) (es : List EdgeRec)
    (selEdgeId : Option String) (selNodeId : Option String) (selSec : Int) :
    List NodeRec × List EdgeRec × Option String :=
  if strFalsy selEdgeId = false then
    match selEdgeId with
    | some eid =>
        match es.find? (fun e => e.id = eid) with
        | some _ => (ns, deleteSelectedEdge eid es, none)
        | none => (ns, es, selEdgeId)
    | none => (ns, es, selEdgeId)
  else if strFalsy selNodeId = false then
    match selNodeId with
    | some nid =>
        match ns.findIdx? (fun n => n.id = nid) with
        | none => (ns, es, selEdgeId)
        | some i =>
            let currentNode := ns.getD i dummyNode
            let attrCount : Nat := max currentNode.attributes.length 1
            if selSec = 0 ∨ selSec = 1 then
              let r := handleDeleteClass currentNode.id ns es
              (r.1, r.2, selEdgeId)
            else if selSec < 2 + (attrCount : Int) then
              let newAttrs :=
                spliceRemoveOne currentNode.attributes (selSec - 2)
              (ns.set i { currentNode with attributes := newAttrs }, es,
               selEdgeId)
            else
              let newMeths :=
                spliceRemoveOne currentNode.methods
                  (selSec - 2 - (attrCount : Int))
              (ns.set i { currentNode with methods := newMeths }, es,
               selEdgeId)
    | none => (ns, es, selEdgeId)
  else
    (ns, es, selEdgeId)

lemma getD_eq_getElem_of_lt {α} (l : List α) (d : α) {i : Nat}
    (h : i < l.length) : l.getD i d = l[i] := by
  simp [List.getD_eq_getElem?_getD, List.getElem?_eq_getElem h]

lemma set_getD_self {α} (l : List α) {i : Nat} (d : α) (h : i < l.length) :
    l.set i (l.getD i d) = l := by
  rw [getD_eq_getElem_of_lt l d h]
  apply List.ext_getElem (by simp)
  intro j hj1 hj2
  rw [List.getElem_set]
  split
  · next heq => subst heq; rfl
  · rfl

/-- C4 counterexample: with a previous node holding zero attributes and one
method, Shift+Tab underflow lands on section index `2`, not on the
`2 + max(attrCount,1) + max(methodCount,1) - 1 = 3` the claim predicts. -/
theorem shift_tab_underflow_counterexample :
    (tabStep true
        [{ id := "1", className := "A", attributes := [],
           methods := ["m()"], selectedSection := none },
         { id := "2", className := "B", attributes := ["a"],
           methods := ["m()"], selectedSection := none }]
        (some "2") 0).2 = (some "1", (2 : Int)) ∧
    (2 : Int) ≠ (2 + max 0 1 + max 1 1 : Int) - 1 := by
  constructor
  · rfl
  · decide

/-- C4 (amended): pressing Shift+Tab with the section index at 0 moves the
selection to the previous node in store order (cyclically) and sets the new
section index to that node's raw section count minus 1, where the raw count
is `2 + attributeCount + methodCount` with no `max(count,1)` placeholder
floor (unlike the forward-Tab count). -/
theorem shift_tab_underflow_wraps_to_previous
    (ns : List NodeRec) (selId : Option String) (i : Nat)
    (hfind : findNodeIdx ns selId = some i) :
    (tabStep true ns selId 0).2.1
      = some (ns.getD ((i + ns.length - 1) % ns.length) dummyNode).id ∧
    (tabStep true ns selId 0).2.2
      = (2 + ((ns.getD ((i + ns.length - 1) % ns.length)
            dummyNode).attributes.length : Int)
          + ((ns.getD ((i + ns.length - 1) % ns.length)
            dummyNode).methods.length : Int)) - 1 := by
  have hcond1 : ¬ ((tabTotalSections (ns[i]?.getD dummyNode) : Int) ≤ -1) :=
    by
    simp only [tabTotalSections]
    push_cast
    omega
  simp [tabStep, hfind, tabStepAt, hcond1]

/-- Witness for C4's amended statement: two concrete nodes, selection on the
second, previous node with one attribute and one method. -/
theorem shift_tab_underflow_wraps_to_previous_witness :
    (tabStep true
        [{ id := "1", className := "A", attributes := ["a"],
           methods := ["m()"], selectedSection := none },
         { id := "2", className := "B", attributes := ["b"],
           methods := ["n()"], selectedSection := none }]
        (some "2") 0).2.1 = some "1" := by
  have h := shift_tab_underflow_wraps_to_previous
    [{ id := "1", className := "A", attributes := ["a"],
       methods := ["m()"], selectedSection := none },
     { id := "2", className := "B", attributes := ["b"],
       methods := ["n()"], selectedSection := none }]
    (some "2") 1 (by decide)
  exact h.1

/-- C10: with no edge selected and the selection on a placeholder slot — the
"Add Attribute" slot (section 2 with zero attributes) or the "Add Method"
slot (section `2 + max(attrCount, 1)` with zero methods) — the Delete key
splices on an empty list, which is a no-op: nodes, edges and the edge
selection are all unchanged. -/
theorem delete_on_placeholder_slot_is_noop
    (ns : List NodeRec) (es : List EdgeRec) (nid : String) (i : Nat)
    (selSec : Int)
    (hfind : ns.findIdx? (fun n => n.id = nid) = some i)
    (hcase : ((ns.getD i dummyNode).attributes = [] ∧ selSec = 2) ∨
             ((ns.getD i dummyNode).methods = [] ∧
              selSec = 2 + (max (ns.getD i dummyNode).attributes.length 1
                : Int))) :
    deleteKeyStep ns es none (some nid) selSec = (ns, es, none) := by
  have hi : i < ns.length :=
    (List.findIdx?_eq_some_iff_getElem.mp hfind).1
  by_cases hnid : nid = ""
  · simp [deleteKeyStep, strFalsy, hnid]
  · rcases hcase with ⟨hattrs, hsec⟩ | ⟨hmeths, hsec⟩
    · have h01 : ¬ (selSec = 0 ∨ selSec = 1) := by omega
      have hlt : selSec
          < 2 + ((max (ns.getD i dummyNode).attributes.length 1 : Nat) :
              Int) := by
        rw [hsec, hattrs]
        norm_num
      simp only [deleteKeyStep, strFalsy, hnid, hfind]
      simp only [h01, if_false, hlt, if_true, if_false]
      rw [hattrs]
      simp only [spliceRemoveOne, List.eraseIdx_nil]
      rw [show { ns.getD i dummyNode with attributes := ([] : List String) }
            = ns.getD i dummyNode by
          rw [show (ns.getD i dummyNode)
              = { ns.getD i dummyNode with
                  attributes := (ns.getD i dummyNode).attributes } by rfl]
          rw [hattrs]]
      rw [set_getD_self ns dummyNode hi]
      simp [strFalsy]
    · have hge1 : (1 : Int) ≤ (max (ns.getD i dummyNode).attributes.length 1
          : Nat) := by
        have := Nat.le_max_right (ns.getD i dummyNode).attributes.length 1
        exact_mod_cast this
      have h01 : ¬ (selSec = 0 ∨ selSec = 1) := by omega
      have hnlt : ¬ (selSec
          < 2 + ((max (ns.getD i dummyNode).attributes.length 1 : Nat) :
              Int)) := by omega
      simp only [deleteKeyStep, strFalsy, hnid, hfind]
      simp only [h01, if_false, hnlt, if_true, if_false]
      rw [hmeths]
      simp only [spliceRemoveOne, List.eraseIdx_nil]
      rw [show { ns.getD i dummyNode with methods := ([] : List String) }
            = ns.getD i dummyNode by
          rw [show (ns.getD i dummyNode)
              = { ns.getD i dummyNode with
                  methods := (ns.getD i dummyNode).methods } by rfl]
          rw [hmeths]]
      rw [set_getD_self ns dummyNode hi]
      simp [strFalsy]

/-- Witness for C10: a node with no attributes selected at section 2, and a
node with no methods selected at its "Add Method" slot. -/
theorem delete_on_placeholder_slot_is_noop_witness :
    deleteKeyStep
        [{ id := "1", className := "A", attributes := [],
           methods := ["m()"], selectedSection := some 2 }]
        [sampleEdge "e1" "1" "1"] none (some "1") 2
      = ([{ id := "1", className := "A", attributes := [],
            methods := ["m()"], selectedSection := some 2 }],
         [sampleEdge "e1" "1" "1"], none) ∧
    deleteKeyStep
        [{ id := "1", className := "A", attributes := ["a", "b"],
           methods := [], selectedSection := some 4 }]
        [] none (some "1") 4
      = ([{ id := "1", className := "A", attributes := ["a", "b"],
            methods := [], selectedSection := some 4 }], [], none) := by
  constructor
  · exact delete_on_placeholder_slot_is_noop
      [{ id := "1", className := "A", attributes := [],
         methods := ["m()"], selectedSection := some 2 }]
      [sampleEdge "e1" "1" "1"] "1" 0 2 (by decide) (Or.inl ⟨rfl, rfl⟩)
  · exact delete_on_placeholder_slot_is_noop
      [{ id := "1", className := "A", attributes := ["a", "b"],
         methods := [], selectedSection := some 4 }]
      [] "1" 0 4 (by decide) (Or.inr ⟨rfl, by decide⟩)

/-! ## Tab cyclicity (C7)

The forward Tab handler, at a valid selection, behaves as the successor
function on the flat ring of `(node index, section)` pairs.  `ringStep` is
that successor, `ringPos` flattens a pair to its position in the ring, and
the cyclicity of `tabStep` follows from `ringStep` incrementing `ringPos`
modulo the ring size. -/

/-- Successor on the flat section ring described by the node list: advance
the section, or move to section 0 of the next node (cyclically) when the
current node's sections are exhausted. -/
def ringStep (ns : List NodeRec) (p : Nat × Nat) : Nat × Nat :=
  if p.2 + 1 < tabTotalSections (ns.getD p.1 dummyNode) then (p.1, p.2 + 1)
  else ((p.1 + 1) % ns.length, 0)

/-- Sum of the section counts of the first `i` nodes. -/
def sumTake (ns : List NodeRec) (i : Nat) : Nat :=
  ((ns.take i).map tabTotalSections).sum

/-- Total number of sections across all nodes: the ring's size. -/
def totalRing (ns : List NodeRec) : Nat :=
  (ns.map tabTotalSections).sum

/-- Flat position of a `(node index, section)` pair on the ring. -/
def ringPos (ns : List NodeRec) (p : Nat × Nat) : Nat :=
  sumTake ns p.1 + p.2

/-- A pair addresses an existing node and one of its sections. -/
def ringValid (ns : List NodeRec) (p : Nat × Nat) : Prop :=
  p.1 < ns.length ∧ p.2 < tabTotalSections (ns.getD p.1 dummyNode)

lemma tabTotalSections_pos (n : NodeRec) : 0 < tabTotalSections n := by
  unfold tabTotalSections
  omega

lemma sumTake_succ (ns : List NodeRec) (i : Nat) (hi : i < ns.length) :
    sumTake ns (i + 1)
      = sumTake ns i + tabTotalSections (ns.getD i dummyNode) := by
  unfold sumTake
  rw [List.take_succ, List.getElem?_eq_getElem hi, List.map_append,
    List.sum_append, getD_eq_getElem_of_lt ns dummyNode hi]
  simp

lemma sumTake_le_totalRing (ns : List NodeRec) (i : Nat) :
    sumTake ns i ≤ totalRing ns := by
  unfold sumTake totalRing
  calc ((ns.take i).map tabTotalSections).sum
      ≤ ((ns.take i).map tabTotalSections).sum
        + ((ns.drop i).map tabTotalSections).sum := Nat.le_add_right _ _
    _ = (ns.map tabTotalSections).sum := by
        rw [← List.sum_append, ← List.map_append, List.take_append_drop]

lemma sumTake_mono (ns : List NodeRec) {i j : Nat} (hij : i ≤ j) :
    sumTake ns i ≤ sumTake ns j := by
  unfold sumTake
  have h1 : ns.take i = (ns.take j).take i := by
    rw [List.take_take, Nat.min_eq_left hij]
  rw [h1]
  calc (((ns.take j).take i).map tabTotalSections).sum
      ≤ (((ns.take j).take i).map tabTotalSections).sum
        + (((ns.take j).drop i).map tabTotalSections).sum :=
        Nat.le_add_right _ _
    _ = ((ns.take j).map tabTotalSections).sum := by
        rw [← List.sum_append, ← List.map_append, List.take_append_drop]

lemma sumTake_length (ns : List NodeRec) :
    sumTake ns ns.length = totalRing ns := by
  unfold sumTake totalRing
  rw [List.take_length]

lemma ringPos_lt (ns : List NodeRec) (p : Nat × Nat)
    (hv : ringValid ns p) : ringPos ns p < totalRing ns := by
  obtain ⟨h1, h2⟩ := hv
  have := sumTake_succ ns p.1 h1
  have hle : sumTake ns (p.1 + 1) ≤ totalRing ns := by
    calc sumTake ns (p.1 + 1) ≤ sumTake ns ns.length :=
          sumTake_mono ns h1
      _ = totalRing ns := sumTake_length ns
  unfold ringPos
  omega

lemma ringStep_valid (ns : List NodeRec) (p : Nat × Nat)
    (hv : ringValid ns p) : ringValid ns (ringStep ns p) := by
  obtain ⟨h1, h2⟩ := hv
  have hlen : 0 < ns.length := by omega
  unfold ringStep ringValid
  by_cases hc : p.2 + 1 < tabTotalSections (ns.getD p.1 dummyNode)
  · rw [if_pos hc]
    exact ⟨h1, hc⟩
  · rw [if_neg hc]
    exact ⟨Nat.mod_lt _ hlen, tabTotalSections_pos _⟩

lemma ringStep_pos (ns : List NodeRec) (p : Nat × Nat)
    (hv : ringValid ns p) :
    ringPos ns (ringStep ns p) = (ringPos ns p + 1) % totalRing ns := by
  obtain ⟨h1, h2⟩ := hv
  have hsucc := sumTake_succ ns p.1 h1
  have hle : sumTake ns (p.1 + 1) ≤ totalRing ns := by
    calc sumTake ns (p.1 + 1) ≤ sumTake ns ns.length := sumTake_mono ns h1
      _ = totalRing ns := sumTake_length ns
  unfold ringStep
  by_cases hc : p.2 + 1 < tabTotalSections (ns.getD p.1 dummyNode)
  · have hlt : sumTake ns p.1 + p.2 + 1 < totalRing ns := by omega
    rw [if_pos hc]
    show sumTake ns p.1 + (p.2 + 1)
        = (sumTake ns p.1 + p.2 + 1) % totalRing ns
    rw [Nat.mod_eq_of_lt hlt]
    omega
  · have hps : p.2 + 1 = tabTotalSections (ns.getD p.1 dummyNode) := by omega
    rw [if_neg hc]
    by_cases hlast : p.1 + 1 < ns.length
    · have hmod : (p.1 + 1) % ns.length = p.1 + 1 := Nat.mod_eq_of_lt hlast
      have hlt2 : sumTake ns (p.1 + 1) < totalRing ns := by
        have h3 := sumTake_succ ns (p.1 + 1) hlast
        have h4 : sumTake ns (p.1 + 1 + 1) ≤ totalRing ns := by
          calc sumTake ns (p.1 + 1 + 1) ≤ sumTake ns ns.length :=
                sumTake_mono ns hlast
            _ = totalRing ns := sumTake_length ns
        have h5 := tabTotalSections_pos (ns.getD (p.1 + 1) dummyNode)
        omega
      show sumTake ns ((p.1 + 1) % ns.length) + 0
          = (sumTake ns p.1 + p.2 + 1) % totalRing ns
      rw [hmod, show sumTake ns p.1 + p.2 + 1 = sumTake ns (p.1 + 1) by
        omega, Nat.mod_eq_of_lt hlt2]
      omega
    · have hlen2 : p.1 + 1 = ns.length := by omega
      have hmod : (p.1 + 1) % ns.length = 0 := by
        rw [hlen2, Nat.mod_self]
      have hN : sumTake ns p.1 + p.2 + 1 = totalRing ns := by
        have h6 := sumTake_length ns
        rw [← hlen2] at h6
        omega
      show sumTake ns ((p.1 + 1) % ns.length) + 0
          = (sumTake ns p.1 + p.2 + 1) % totalRing ns
      rw [hmod, hN, Nat.mod_self]
      simp [sumTake]

lemma ringPos_inj (ns : List NodeRec) (p q : Nat × Nat)
    (hp : ringValid ns p) (hq : ringValid ns q)
    (hpq : ringPos ns p = ringPos ns q) : p = q := by
  obtain ⟨hp1, hp2⟩ := hp
  obtain ⟨hq1, hq2⟩ := hq
  unfold ringPos at hpq
  have h1 : p.1 = q.1 := by
    by_contra hne
    rcases Nat.lt_or_ge p.1 q.1 with hlt | hge
    · have hs := sumTake_succ ns p.1 hp1
      have hmono := sumTake_mono ns (show p.1 + 1 ≤ q.1 from hlt)
      omega
    · have hlt : q.1 < p.1 := by omega
      have hs := sumTake_succ ns q.1 hq1
      have hmono := sumTake_mono ns (show q.1 + 1 ≤ p.1 from hlt)
      omega
  have h2 : p.2 = q.2 := by
    rw [h1] at hpq
    omega
  exact Prod.ext h1 h2

lemma ringStep_iterate (ns : List NodeRec) (p : Nat × Nat) (k : Nat)
    (hv : ringValid ns p) :
    ringValid ns ((ringStep ns)^[k] p) ∧
    ringPos ns ((ringStep ns)^[k] p)
      = (ringPos ns p + k) % totalRing ns := by
  induction k with
  | zero =>
    refine ⟨by simpa using hv, ?_⟩
    simp [Nat.mod_eq_of_lt (ringPos_lt ns p hv)]
  | succ k ih =>
    obtain ⟨ihv, ihpos⟩ := ih
    refine ⟨?_, ?_⟩
    · rw [Function.iterate_succ_apply']
      exact ringStep_valid ns _ ihv
    · rw [Function.iterate_succ_apply', ringStep_pos ns _ ihv, ihpos,
        Nat.mod_add_mod, Nat.add_assoc]

lemma ringStep_cycle (ns : List NodeRec) (p : Nat × Nat)
    (hv : ringValid ns p) : (ringStep ns)^[totalRing ns] p = p := by
  obtain ⟨hval, hpos⟩ := ringStep_iterate ns p (totalRing ns) hv
  refine ringPos_inj ns _ p hval hv ?_
  rw [hpos, Nat.add_mod_right]
  exact Nat.mod_eq_of_lt (ringPos_lt ns p hv)

/-- Projection of a node to the data the Tab handler reads: id and the two
list lengths. -/
def nodeShape (n : NodeRec) : String × Nat × Nat :=
  (n.id, n.attributes.length, n.methods.length)

/-- Id of the node at a store index. -/
def idAt (ns : List NodeRec) (j : Nat) : String := (ns.getD j dummyNode).id

lemma mark_shape (t : String) (sec : Int) (ns : List NodeRec) :
    (applySelectedSectionMark t sec ns).map nodeShape = ns.map nodeShape := by
  unfold applySelectedSectionMark
  rw [List.map_map]
  refine List.map_congr_left ?_
  intro n hn
  by_cases h : n.id = t <;> simp [h, nodeShape]

lemma shape_length {ns' ns : List NodeRec}
    (hsh : ns'.map nodeShape = ns.map nodeShape) : ns'.length = ns.length :=
  by
  have := congrArg List.length hsh
  simpa using this

lemma shape_getD {ns' ns : List NodeRec}
    (hsh : ns'.map nodeShape = ns.map nodeShape) {j : Nat}
    (hj : j < ns.length) :
    nodeShape (ns'.getD j dummyNode) = nodeShape (ns.getD j dummyNode) := by
  have hlen : ns'.length = ns.length := shape_length hsh
  have hj' : j < ns'.length := by omega
  have h1 : (ns'.map nodeShape)[j]? = (ns.map nodeShape)[j]? := by rw [hsh]
  rw [List.getElem?_map, List.getElem?_map, List.getElem?_eq_getElem hj',
    List.getElem?_eq_getElem hj] at h1
  rw [getD_eq_getElem_of_lt ns' dummyNode hj',
    getD_eq_getElem_of_lt ns dummyNode hj]
  simpa using h1

lemma shape_id {ns' ns : List NodeRec}
    (hsh : ns'.map nodeShape = ns.map nodeShape) {j : Nat}
    (hj : j < ns.length) :
    (ns'.getD j dummyNode).id = (ns.getD j dummyNode).id :=
  congrArg Prod.fst (shape_getD hsh hj)

lemma shape_totalSections {ns' ns : List NodeRec}
    (hsh : ns'.map nodeShape = ns.map nodeShape) {j : Nat}
    (hj : j < ns.length) :
    tabTotalSections (ns'.getD j dummyNode)
      = tabTotalSections (ns.getD j dummyNode) := by
  have h := shape_getD hsh hj
  have ha : (ns'.getD j dummyNode).attributes.length
      = (ns.getD j dummyNode).attributes.length :=
    congrArg (fun x => x.2.1) h
  have hm : (ns'.getD j dummyNode).methods.length
      = (ns.getD j dummyNode).methods.length :=
    congrArg (fun x => x.2.2) h
  unfold tabTotalSections
  rw [ha, hm]

lemma findIdx_at_of_nodup {ns' ns : List NodeRec}
    (hsh : ns'.map nodeShape = ns.map nodeShape)
    (hnodup : (ns.map NodeRec.id).Nodup) {i : Nat} (hi : i < ns.length) :
    ns'.findIdx? (fun n => n.id = idAt ns i) = some i := by
  have hlen : ns'.length = ns.length := shape_length hsh
  have hi' : i < ns'.length := by omega
  rw [List.findIdx?_eq_some_iff_getElem]
  refine ⟨hi', ?_, ?_⟩
  · have h1 : ns'[i].id = (ns.getD i dummyNode).id := by
      rw [← getD_eq_getElem_of_lt ns' dummyNode hi']
      exact shape_id hsh hi
    simp [h1, idAt]
  · intro j hji
    have hj : j < ns.length := by omega
    have hj' : j < ns'.length := by omega
    have h1 : ns'[j].id = (ns.getD j dummyNode).id := by
      rw [← getD_eq_getElem_of_lt ns' dummyNode hj']
      exact shape_id hsh hj
    simp only [h1, idAt, decide_eq_true_eq]
    intro heq
    have hjm : j < (ns.map NodeRec.id).length := by
      rw [List.length_map]
      omega
    have him : i < (ns.map NodeRec.id).length := by
      rw [List.length_map]
      omega
    have hmap : (ns.map NodeRec.id)[j] = (ns.map NodeRec.id)[i] := by
      rw [List.getElem_map, List.getElem_map]
      rw [← getD_eq_getElem_of_lt ns dummyNode hj,
        ← getD_eq_getElem_of_lt ns dummyNode hi]
      exact heq
    have := (List.Nodup.getElem_inj_iff hnodup).mp hmap
    omega

/-- At a valid selection, a forward Tab press is exactly the ring successor:
it moves the selection pair to `ringStep` of the current pair and re-marks
the nodes, preserving their shape.  `ns'` is the current node store, which
may differ from the reference store `ns` only in `selectedSection` marks. -/
lemma tabStep_matches_ringStep (ns ns' : List NodeRec) (p : Nat × Nat)
    (hsh : ns'.map nodeShape = ns.map nodeShape)
    (hnodup : (ns.map NodeRec.id).Nodup)
    (hv : ringValid ns p) :
    tabStep false ns' (some (idAt ns p.1)) (p.2 : Int)
      = (applySelectedSectionMark (idAt ns (ringStep ns p).1)
           (((ringStep ns p).2 : Int)) ns',
         some (idAt ns (ringStep ns p).1), ((ringStep ns p).2 : Int)) := by
  obtain ⟨h1, h2⟩ := hv
  have hlen := shape_length hsh
  have hfind := findIdx_at_of_nodup hsh hnodup h1
  have htot := shape_totalSections hsh h1
  have hid := shape_id hsh h1
  simp only [tabStep, findNodeIdx, hfind]
  by_cases hc : p.2 + 1 < tabTotalSections (ns.getD p.1 dummyNode)
  · have hstep : ringStep ns p = (p.1, p.2 + 1) := by
      unfold ringStep
      rw [if_pos hc]
    rw [hstep]
    have hcond : ¬ ((tabTotalSections (ns'.getD p.1 dummyNode) : Int)
        ≤ (p.2 : Int) + 1) := by
      rw [htot]
      omega
    have hcond2 : ¬ ((p.2 : Int) + 1 < 0) := by omega
    simp only [List.getD_eq_getElem?_getD] at hcond hid
    simp [tabStepAt, hcond, hcond2, hid, idAt, List.getD_eq_getElem?_getD]
  · have hstep : ringStep ns p = ((p.1 + 1) % ns.length, 0) := by
      unfold ringStep
      rw [if_neg hc]
    rw [hstep]
    have hcond : (tabTotalSections (ns'.getD p.1 dummyNode) : Int)
        ≤ (p.2 : Int) + 1 := by
      rw [htot]
      omega
    have hi2 : (p.1 + 1) % ns.length < ns.length := Nat.mod_lt _ (by omega)
    have hid2 := shape_id hsh hi2
    simp only [List.getD_eq_getElem?_getD] at hcond hid2
    simp [tabStepAt, hcond, hlen, hid2, idAt, List.getD_eq_getElem?_getD]

/-- One full key press of Tab (no Shift) as a transformation of the whole
navigator state `(nodes, selectedNodeId, selectedSectionIndex)`. -/
def tabRing (st : List NodeRec × Option String × Int) :
    List NodeRec × Option String × Int :=
  tabStep false st.1 st.2.1 st.2.2

/-- C7: starting from any valid selection `(node i, section s)` over a store
with distinct node ids, pressing Tab exactly `totalRing ns` times — the sum
over all nodes of `2 + max(attrCount,1) + max(methodCount,1)` — returns the
selection to the starting (node, section) pair: the sections form one flat
cyclic ring in store order. -/
theorem tab_cyclicity (ns : List NodeRec) (i s : Nat)
    (hnodup : (ns.map NodeRec.id).Nodup)
    (hi : i < ns.length)
    (hs : s < tabTotalSections (ns.getD i dummyNode)) :
    (tabRing^[totalRing ns] (ns, some (idAt ns i), (s : Int))).2
      = (some (idAt ns i), (s : Int)) := by
  have main : ∀ (k : Nat) (ns' : List NodeRec) (p : Nat × Nat),
      ns'.map nodeShape = ns.map nodeShape → ringValid ns p →
      ∃ ns2, ns2.map nodeShape = ns.map nodeShape ∧
        tabRing^[k] (ns', some (idAt ns p.1), (p.2 : Int))
          = (ns2, some (idAt ns ((ringStep ns)^[k] p).1),
             (((ringStep ns)^[k] p).2 : Int)) := by
    intro k
    induction k with
    | zero =>
      intro ns' p hsh hv
      exact ⟨ns', hsh, by simp⟩
    | succ k ih =>
      intro ns' p hsh hv
      have hstep := tabStep_matches_ringStep ns ns' p hsh hnodup hv
      obtain ⟨ns2, hsh2, hrest⟩ := ih
        (applySelectedSectionMark (idAt ns (ringStep ns p).1)
          (((ringStep ns p).2 : Int)) ns')
        (ringStep ns p)
        ((mark_shape _ _ _).trans hsh)
        (ringStep_valid ns p hv)
      refine ⟨ns2, hsh2, ?_⟩
      rw [Function.iterate_succ_apply]
      have ht : tabRing (ns', some (idAt ns p.1), (p.2 : Int))
          = (applySelectedSectionMark (idAt ns (ringStep ns p).1)
               (((ringStep ns p).2 : Int)) ns',
             some (idAt ns (ringStep ns p).1),
             ((ringStep ns p).2 : Int)) := hstep
      rw [ht, hrest, Function.iterate_succ_apply]
  obtain ⟨ns2, _, h⟩ := main (totalRing ns) ns (i, s) rfl ⟨hi, hs⟩
  rw [h, ringStep_cycle ns (i, s) ⟨hi, hs⟩]

/-- Witness for C7: a single node with one attribute and one method has
`2 + 1 + 1 = 4` sections; four Tab presses from `(node "1", section 0)`
return the selection to `(node "1", section 0)`. -/
theorem tab_cyclicity_witness :
    (tabRing^[totalRing
        [{ id := "1", className := "A", attributes := ["a"],
           methods := ["m()"], selectedSection := some 0 }]]
      ([{ id := "1", className := "A", attributes := ["a"],
          methods := ["m()"], selectedSection := some 0 }],
       some (idAt
        [{ id := "1", className := "A", attributes := ["a"],
           methods := ["m()"], selectedSection := some 0 }] 0),
       ((0 : Nat) : Int))).2
      = (some (idAt
          [{ id := "1", className := "A", attributes := ["a"],
             methods := ["m()"], selectedSection := some 0 }] 0),
         ((0 : Nat) : Int)) :=
  tab_cyclicity
    [{ id := "1", className := "A", attributes := ["a"],
       methods := ["m()"], selectedSection := some 0 }]
    0 0 (by decide) (by decide) (by decide)

/-! ## PlantUML text interchange

`exportToPlantUML` is embedded as its pure text construction (the blob
download glue carries no data).  `importFromPlantUML` parses with two
module-level regexes; they are embedded as character scanners implementing
exactly those patterns' matching semantics:
`classRegex = /class\s+(\S+)\s*\x7b([\s\S]*?)\x7d/g` (greedy `\S+` with
backtracking into the name when the brace abuts it, lazy body up to the
first closing brace) and
`relationshipRegex = /(\w+)\s+([-\|<:o>\.*]+)\s+(\w+)/g` (no backtracking is
possible for these groups since the word, whitespace and symbol classes are
pairwise disjoint except that the scan restarts one character further on
failure, exactly as the regex engine advances). -/

/-- Subset of the regex `\s` class occurring in diagram text. -/
def isWsChar (c : Char) : Bool :=
  c = ' ' || c = '\n' || c = '\t' || c = '\r'

/-- The regex `\w` class: `[A-Za-z0-9_]`. -/
def isWordChar (c : Char) : Bool :=
  c.isAlphanum || c = '_'

/-- The relationship symbol class `[-\|<:o>\.*]`. -/
def isSymChar (c : Char) : Bool :=
  c = '-' || c = '|' || c = '<' || c = ':' || c = 'o' || c = '>' ||
  c = '.' || c = '*'

/-- JavaScript `String.prototype.trim` on a character list. -/
def trimChars (l : List Char) : List Char :=
  ((l.dropWhile isWsChar).reverse.dropWhile isWsChar).reverse

/-- JavaScript `String.prototype.trim` on a string. -/
def strTrim (s : String) : String := String.mk (trimChars s.data)

/-- JavaScript `line.includes('()')`: the two-character substring test. -/
def hasParens : List Char → Bool
  | '(' :: ')' :: _ => true
  | [] => false
  | _ :: rest => hasParens rest

/-- JavaScript `String.prototype.split(sep)` on a character list. -/
def splitOnChar (sep : Char) : List Char → List (List Char)
  | [] => [[]]
  | c :: rest =>
    let r := splitOnChar sep rest
    if c = sep then [] :: r
    else
      match r with
      | [] => [[c]]
      | h :: t => (c :: h) :: t

/-- Index of the last `\x7b` in a name candidate, for the greedy-`\S+`
backtracking of `classRegex`. -/
def lastBraceIdx (R : List Char) : Option Nat :=
  match R.reverse.findIdx? (fun c => c = '\x7b') with
  | none => none
  | some k => some (R.length - 1 - k)

/-- Attempt to match the tail of `classRegex` (`\s+(\S+)\s*\x7b([\s\S]*?)\x7d`)
at the position just after a literal `class`.  Returns
`(name, body, rest-of-input)` on success. -/
def tryParseClass (cs : List Char) :
    Option (List Char × List Char × List Char) :=
  let ws := cs.takeWhile isWsChar
  if ws.length = 0 then none
  else
    let cs1 := cs.drop ws.length
    let R := cs1.takeWhile (fun c => !isWsChar c)
    if R.length = 0 then none
    else
      let afterR := cs1.drop R.length
      let afterWs := afterR.dropWhile isWsChar
      let nb : Option (List Char × List Char) :=
        match afterWs with
        | '\x7b' :: bodyStart => some (R, bodyStart)
        | _ =>
          match lastBraceIdx R with
          | some j =>
              if 1 ≤ j then some (R.take j, R.drop (j + 1) ++ afterR)
              else none
          | none => none
      match nb with
      | none => none
      | some (name, bodyStart) =>
        let body := bodyStart.takeWhile (fun c => c != '\x7d')
        let rest := bodyStart.drop body.length
        match rest with
        | '\x7d' :: rest2 => some (name, body, rest2)
        | _ => none

/-- Global scan of `classRegex`: at each position where the literal `class`
occurs, attempt the match; on success continue after the consumed text, on
failure advance one character (the regex engine's behavior).  `fuel` bounds
the recursion by the input length. -/
def classScanGo : Nat → List Char → List (List Char × List Char)
  | 0, _ => []
  | _, [] => []
  | fuel + 1, c :: rest =>
    if List.isPrefixOf ['c', 'l', 'a', 's', 's'] (c :: rest) then
      match tryParseClass ((c :: rest).drop 5) with
      | some (name, body, rest2) => (name, body) :: classScanGo fuel rest2
      | none => classScanGo fuel rest
    else classScanGo fuel rest

/-- Global scan of `relationshipRegex`: a maximal word run, mandatory
whitespace, a maximal symbol run, mandatory whitespace, a maximal word run;
on failure advance one character. -/
def relScanGo : Nat → List Char → List (List Char × List Char × List Char)
  | 0, _ => []
  | _, [] => []
  | fuel + 1, c :: rest =>
    if isWordChar c then
      let cs := c :: rest
      let w1 := cs.takeWhile isWordChar
      let cs1 := cs.drop w1.length
      let ws1 := cs1.takeWhile isWsChar
      let cs2 := cs1.drop ws1.length
      let sym := cs2.takeWhile isSymChar
      let cs3 := cs2.drop sym.length
      let ws2 := cs3.takeWhile isWsChar
      let cs4 := cs3.drop ws2.length
      let w2 := cs4.takeWhile isWordChar
      if ws1.length = 0 || sym.length = 0 || ws2.length = 0 ||
          w2.length = 0 then
        relScanGo fuel rest
      else (w1, sym, w2) :: relScanGo fuel (cs4.drop w2.length)
    else relScanGo fuel rest

/-- Build the `k`-th imported node from a class match: body lines without
`()` become attributes, lines with `()` become methods (blank lines are
dropped, entries are trimmed), and the id is the 1-based insertion index. -/
def importNodeOfMatch (k : Nat) (m : List Char × List Char) : NodeRec :=
  let lines := splitOnChar '\n' m.2
  let attrs := (lines.filter
      (fun l => !(trimChars l).isEmpty && !hasParens l)).map
      (fun l => String.mk (trimChars l))
  let meths := (lines.filter
      (fun l => !(trimChars l).isEmpty && hasParens l)).map
      (fun l => String.mk (trimChars l))
  { id := toString (k + 1), className := String.mk m.1,
    attributes := attrs, methods := meths, selectedSection := none }

/-- Build an imported edge from a relationship match, resolving both class
names against the imported nodes; unresolvable lines are dropped.  The id is
`edge-<sourceId>-<targetId>`; a symbol containing `o` maps to aggregation
and anything else to association; a `:`-suffixed symbol yields a label. -/
def importRelEdge (nodes : List NodeRec)
    (rel : List Char × List Char × List Char) : Option EdgeRec :=
  match nodes.find? (fun n => n.className = String.mk rel.1),
        nodes.find? (fun n => n.className = String.mk rel.2.2) with
  | some sn, some tn =>
      let relation := rel.2.1
      some { id := "edge-" ++ sn.id ++ "-" ++ tn.id
             source := sn.id
             target := tn.id
             sourceHandle := none
             targetHandle := none
             label := some (if relation.contains ':' then
                 String.mk ((splitOnChar ':' relation).getD 1 [])
               else "Association")
             relationshipType := some (if relation.contains 'o' then
                 "aggregation" else "association")
             edgeIndex := none
             totalEdges := none }
  | _, _ => none

/-- `importFromPlantUML` (page.tsx lines 186-262): parse class blocks, then
relationship lines, and return the stores the handler installs. -/
def importFromPlantUML (text : String) : List NodeRec × List EdgeRec :=
  let cs := text.data
  let ms := classScanGo cs.length cs
  let nodes := ms.enum.map (fun km => importNodeOfMatch km.1 km.2)
  let edges := (relScanGo cs.length cs).filterMap (importRelEdge nodes)
  (nodes, edges)

/-- The per-type relationship line emitted by the exporter. -/
def relationshipSymbolLine (s t rt : String) : String :=
  if rt = "inheritance" then s ++ " <|-- " ++ t
  else if rt = "aggregation" then s ++ " o-- " ++ t
  else if rt = "composition" then s ++ " *-- " ++ t
  else if rt = "dependency" then s ++ " ..> " ++ t
  else s ++ " --> " ++ t

/-- One edge declaration of the exporter: empty when either endpoint id does
not resolve to a class name. -/
def exportEdgeLine (ns : List NodeRec) (e : EdgeRec) : String :=
  let sourceName := (ns.find? (fun n => n.id = e.source)).map
    NodeRec.className
  let targetName := (ns.find? (fun n => n.id = e.target)).map
    NodeRec.className
  if strFalsy sourceName || strFalsy targetName then ""
  else relationshipSymbolLine (sourceName.getD "") (targetName.getD "")
    (jsOrStr e.relationshipType "association")

/-- One class declaration of the exporter. -/
def exportNodeDecl (n : NodeRec) : String :=
  let attrs := String.intercalate "\n" (n.attributes.map (fun a => "  " ++ a))
  let meths := String.intercalate "\n" (n.methods.map (fun m => "  " ++ m))
  "class " ++ n.className ++ " \x7b\n" ++ attrs ++ "\n" ++ meths ++
    "\n\x7d"

/-- `exportToPlantUML` (page.tsx lines 139-175), pure text part: header,
class declarations, non-blank edge declarations and footer joined by
newlines. -/
def exportToPlantUML (ns : List NodeRec) (es : List EdgeRec) : String :=
  let umlHeader := "@startuml\n"
  let umlFooter := "@enduml\n"
  let nodeDecls := ns.map exportNodeDecl
  let edgeDecls := (es.map (exportEdgeLine ns)).filter
    (fun line => !(strTrim line = ""))
  String.intercalate "\n" ([umlHeader] ++ nodeDecls ++ edgeDecls ++
    [umlFooter])

/-- The two-node diagram of the round-trip property: `A` with attribute `x`
and method `y()`, and an empty `B`. -/
def roundTripNodes : List NodeRec :=
  [{ id := "1", className := "A", attributes := ["x"], methods := ["y()"],
     selectedSection := none },
   { id := "2", className := "B", attributes := [], methods := [],
     selectedSection := none }]

/-- The dependency edge `A ..> B` of the round-trip property. -/
def roundTripEdge : EdgeRec :=
  { id := "e1", source := "1", target := "2", sourceHandle := none,
    targetHandle := none, label := some "Association",
    relationshipType := some "dependency", edgeIndex := some 0,
    totalEdges := some 1 }

/-- C5 counterexample: exporting the dependency diagram and importing the
text yields one edge whose `relationshipType` is `"association"`, not
`"dependency"` — the import grammar maps the symbol `..>`, which contains no
`o`, to plain association. -/
theorem puml_round_trip_dependency_counterexample :
    (importFromPlantUML
        (exportToPlantUML roundTripNodes [roundTripEdge])).2.map
        EdgeRec.relationshipType
      = [some "association"] ∧
    some "association" ≠ (some "dependency" : Option String) := by
  exact ⟨by decide, by decide⟩

/-- C5 (amended): exporting a diagram with nodes `A {x; y()}` and `B` and a
dependency edge `A ..> B`, then importing the produced text, yields exactly
the two nodes named `A` and `B` with their attribute/method lists and
exactly one edge from `A`'s node to `B`'s node — whose `relationshipType` is
`"association"` (with the default `"Association"` label), since the
narrower import symbol grammar maps every symbol without an `o` to plain
association. -/
theorem puml_round_trip_dependency_imports_as_association :
    (importFromPlantUML
        (exportToPlantUML roundTripNodes [roundTripEdge])).1.map
        (fun n => (n.className, n.attributes, n.methods))
      = [("A", ["x"], ["y()"]), ("B", [], [])] ∧
    (importFromPlantUML
        (exportToPlantUML roundTripNodes [roundTripEdge])).2.map
        (fun e => (e.source, e.target, e.relationshipType, e.label))
      = [("1", "2", some "association", some "Association")] := by
  exact ⟨by decide, by decide⟩

lemma go_map_id (s t : String) (k : Nat) :
    ∀ (es : List EdgeRec) (seen : Nat),
    (updateEdgeIndicesGo s t k seen es).map EdgeRec.id
      = es.map EdgeRec.id := by
  intro es
  induction es with
  | nil => intro seen; simp [updateEdgeIndicesGo]
  | cons e rest ih =>
    intro seen
    by_cases h : sameEdgePair s t e
    · simp [updateEdgeIndicesGo, h, ih (seen + 1)]
    · simp [updateEdgeIndicesGo, h, ih seen]

/-- C8 counterexample: importing a text with two relationship lines between
the same ordered class pair produces two edges with the identical id
`edge-1-2`, so the edge store's ids are not pairwise distinct. -/
theorem edge_id_collision_on_duplicate_import :
    ((importFromPlantUML ("@startuml\nclass A \x7b\n\x7d\nclass B " ++
        "\x7b\n\x7d\nA --> B\nA --> B\n@enduml\n")).2.map EdgeRec.id)
      = ["edge-1-2", "edge-1-2"] ∧
    ¬ (((importFromPlantUML ("@startuml\nclass A \x7b\n\x7d\nclass B " ++
        "\x7b\n\x7d\nA --> B\nA --> B\n@enduml\n")).2.map
        EdgeRec.id).Nodup) := by
  exact ⟨by decide, by decide⟩

/-- C8 (amended): every imported edge's id is exactly
`edge-<sourceId>-<targetId>`, determined by the ordered endpoint pair alone
(so ids of imported edges are distinct only when those pairs are), while a
connect identical to an already-stored connection (same endpoints and
handles) is dropped by `addEdge` and changes no edge id at all. -/
theorem edge_id_generation :
    (∀ (text : String) (e : EdgeRec), e ∈ (importFromPlantUML text).2 →
       e.id = "edge-" ++ e.source ++ "-" ++ e.target) ∧
    (∀ (p : ConnectionRec) (now : Nat) (es : List EdgeRec) (s t : String),
       p.source = some s → p.target = some t →
       connectionExists (connectNewEdge s t p.sourceHandle p.targetHandle
         now) es →
       (onConnect p now es).map EdgeRec.id = es.map EdgeRec.id) := by
  constructor
  · intro text e he
    unfold importFromPlantUML at he
    simp only [List.mem_filterMap] at he
    obtain ⟨rel, _, heq⟩ := he
    unfold importRelEdge at heq
    split at heq
    · injection heq with heq2
      subst heq2
      rfl
    · cases heq
  · intro p now es s t hs ht hex
    by_cases hfal : strFalsy p.source || strFalsy p.target
    · simp [onConnect, hfal]
    · have hconn : onConnect p now es
          = updateEdgeIndicesBetweenNodes s t
              (addEdge (connectNewEdge s t p.sourceHandle p.targetHandle
                now) es) := by
        unfold onConnect
        rw [if_neg hfal, hs, ht]
      rw [hconn]
      unfold addEdge
      by_cases hsrc : (connectNewEdge s t p.sourceHandle p.targetHandle
          now).source = "" ∨ (connectNewEdge s t p.sourceHandle
          p.targetHandle now).target = ""
      · rcases hsrc with h | h <;> simp [h, updateEdgeIndicesBetweenNodes,
          go_map_id]
      · push_neg at hsrc
        simp only [hsrc.1, hsrc.2, hex, if_true, if_false]
        simp [updateEdgeIndicesBetweenNodes, go_map_id, hex]

/-- Witness for C8's amended statement: the duplicated-import edge satisfies
the id formula, and a repeated connect between nodes `1` and `2` with no
handles leaves the single stored edge's id list unchanged. -/
theorem edge_id_generation_witness :
    ({ id := "edge-1-2", source := "1", target := "2", sourceHandle := none,
       targetHandle := none, label := some "Association",
       relationshipType := some "association", edgeIndex := none,
       totalEdges := none } : EdgeRec).id
      = "edge-" ++ "1" ++ "-" ++ "2" ∧
    (onConnect ⟨some "1", some "2", none, none⟩ 5
        [sampleEdge "e9" "1" "2"]).map EdgeRec.id
      = [sampleEdge "e9" "1" "2"].map EdgeRec.id := by
  constructor
  · exact edge_id_generation.1
      ("@startuml\nclass A \x7b\n\x7d\nclass B " ++
        "\x7b\n\x7d\nA --> B\nA --> B\n@enduml\n")
      { id := "edge-1-2", source := "1", target := "2",
        sourceHandle := none, targetHandle := none,
        label := some "Association",
        relationshipType := some "association", edgeIndex := none,
        totalEdges := none }
      (by decide)
  · exact edge_id_generation.2 ⟨some "1", some "2", none, none⟩ 5
      [sampleEdge "e9" "1" "2"] "1" "2" rfl rfl (by decide)

end UmlFlow
